import Mathlib

/-!
Verification of the salon appointment/customer/service management app
(`record_app_for_hairdressor`): a shallow embedding, in Lean 4, of the
adjustment engine, history analyzer, appointment CRUD routes, customer
statistics projection and service catalog routes, together with theorems
settling the specification claims.

Modelling conventions:
- JavaScript numbers are modelled as `Int` (all values the code manipulates
  here are integers; floating-point noise of `x * (1 + p/100)` is abstracted
  to exact arithmetic).
- `Math.round` (round half toward positive infinity) of an integer quotient
  `n / d` with `d > 0` is `jsRound n d` below, i.e. `⌊n/d + 1/2⌋`.
- ISO date-time strings are modelled by integer timestamps; only their
  ordering and equality are used by the code (`new Date(s).getTime()` is
  order-preserving on the ISO strings the app produces).
- JavaScript `Array.prototype.sort` is stable; with a comparator that
  totally preorders the elements its result is exactly the stable
  (insertion) sort modelled by `sortByKeyDesc` / `sortByNameAsc`.
- A JavaScript object used as a dictionary iterates non-negative-integer
  keys in ascending numeric order (`keysAsc`) and other string keys in
  insertion order (association lists below).
-/

namespace Salon

/-- JavaScript `Math.round (n / d)` for integers `n` and `d > 0`:
round half up, i.e. `⌊n/d + 1/2⌋ = ⌊(2n + d) / (2d)⌋`. -/
def jsRound (n : Int) (d : Int) : Int :=
  Int.fdiv (2 * n + d) (2 * d)

/-- JavaScript `x || default` for an optional string, where the empty
string is falsy. -/
def jsOrString (o : Option String) (dflt : String) : String :=
  match o with
  | some s => if s = "" then dflt else s
  | none => dflt

/-- JavaScript `x || 0` for an optional number (absent and `0` both give
`0`; any other number is truthy and kept). -/
def jsOrZero (o : Option Int) : Int :=
  o.getD 0

/-- Stable insertion into a list sorted descending by `key`: the new
element goes in front of the first element whose key is not greater.
This is the order a stable JS sort with comparator `(a, b) => key b - key a`
produces. -/
def insertByKeyDesc {α : Type} (key : α → Int) (a : α) : List α → List α
  | [] => [a]
  | b :: l => if key b > key a then b :: insertByKeyDesc key a l else a :: b :: l

/-- Stable sort, descending by `key` (model of the stable JS
`sort((a, b) => key b - key a)`). -/
def sortByKeyDesc {α : Type} (key : α → Int) : List α → List α
  | [] => []
  | a :: l => insertByKeyDesc key a (sortByKeyDesc key l)

/-! ### Data model (src/types, src/app/api routes) -/

/-- A service snapshot as stored inside an appointment:
`{ id, name, duration, price }`. -/
structure Service where
  id : String
  name : String
  duration : Int
  price : Int
deriving DecidableEq, Repr

/-- Appointment lifecycle status. -/
inductive Status where
  | scheduled
  | completed
  | cancelled
deriving DecidableEq, Repr

/-- Stored appointment record (the `Appointment` type of the API routes).
`endTime` models the `end` field (a Lean keyword); it is `Option` because
the create route stores the caller's `end` verbatim, present or not. -/
structure Appointment where
  id : String
  title : String
  start : Int
  endTime : Option Int
  clientId : String
  clientName : String
  phone : String
  services : List Service
  totalPrice : Int
  totalDuration : Int
  note : String
  status : Status
  createdAt : Int
  updatedAt : Int
deriving DecidableEq, Repr

/-- Ephemeral booking-flow wrapper around a catalog service
(`AdjustableService` in src/types/appointment). -/
structure AdjustableService where
  id : String
  name : String
  baseDuration : Int
  adjustedDuration : Int
  basePrice : Int
  adjustedPrice : Int
  isAdjusted : Bool
  adjustmentReason : Option String
deriving DecidableEq, Repr

/-- The `AdjustableService` invariant stated by the spec:
`isAdjusted == (adjustedDuration != baseDuration || adjustedPrice != basePrice)`. -/
def adjustableInvariant (s : AdjustableService) : Prop :=
  s.isAdjusted = ((s.adjustedDuration != s.baseDuration) || (s.adjustedPrice != s.basePrice))

instance (s : AdjustableService) : Decidable (adjustableInvariant s) := by
  unfold adjustableInvariant; infer_instance

/-! ### Adjustment Engine — bulk apply (BulkAdjustmentModal.handleApply) -/

/-- The three bulk adjustment modes of `BulkAdjustmentModal`. -/
inductive AdjustmentType where
  | percentage
  | fixed
  | time
deriving DecidableEq, Repr

/-- One service's adjustment inside `handleApply`:
```
let newPrice = service.basePrice; let newDuration = service.baseDuration;
if (adjustmentType === 'percentage')
  newPrice = Math.round(service.basePrice * (1 + priceAdjustment / 100));
else if (adjustmentType === 'fixed')
  newPrice = Math.max(0, service.basePrice + priceAdjustment);
if (timeAdjustment !== 0)
  newDuration = Math.max(5, service.baseDuration + timeAdjustment);
return { ...service, adjustedPrice: newPrice, adjustedDuration: newDuration,
  isAdjusted: newPrice !== service.basePrice || newDuration !== service.baseDuration,
  adjustmentReason: reason };
```
-/
def applyBulkToService (adjustmentType : AdjustmentType) (priceAdjustment timeAdjustment : Int)
    (reason : String) (service : AdjustableService) : AdjustableService :=
  let newPrice : Int :=
    match adjustmentType with
    | .percentage => jsRound (service.basePrice * (100 + priceAdjustment)) 100
    | .fixed => max 0 (service.basePrice + priceAdjustment)
    | .time => service.basePrice
  let newDuration : Int :=
    if timeAdjustment ≠ 0 then max 5 (service.baseDuration + timeAdjustment)
    else service.baseDuration
  { service with
    adjustedPrice := newPrice
    adjustedDuration := newDuration
    isAdjusted := (newPrice != service.basePrice) || (newDuration != service.baseDuration)
    adjustmentReason := some reason }

/-- `handleApply`: map the bulk directive over the selected services. -/
def handleApply (adjustmentType : AdjustmentType) (priceAdjustment timeAdjustment : Int)
    (reason : String) (selectedServices : List AdjustableService) : List AdjustableService :=
  selectedServices.map (applyBulkToService adjustmentType priceAdjustment timeAdjustment reason)

/-! ### Adjustment Engine — individual presets (ServiceAdjustmentModal) -/

/-- `handleDurationPreset`: `Math.max(5, service.baseDuration + value)`. -/
def handleDurationPreset (baseDuration : Int) (value : Int) : Int :=
  max 5 (baseDuration + value)

/-- A price preset of `ServiceAdjustmentModal`. A percentage preset's
fractional `value` (−0.2, −0.1, 0.1, 0.2) is encoded as the integer
`100 * value` so that the arithmetic stays exact. -/
inductive PricePreset where
  | percentage (pct : Int)
  | fixed (delta : Int)
deriving DecidableEq, Repr

/-- `handlePricePreset`:
```
if (preset.type === 'percentage')
  newPrice = Math.round(service.basePrice * (1 + preset.value));
else newPrice = service.basePrice + preset.value;
setAdjustedPrice(Math.max(0, newPrice));
```
-/
def handlePricePreset (basePrice : Int) (preset : PricePreset) : Int :=
  let newPrice : Int :=
    match preset with
    | .percentage pct => jsRound (basePrice * (100 + pct)) 100
    | .fixed delta => basePrice + delta
  max 0 newPrice

/-! ### Booking flow — individual adjustment save and reset
(AppointmentForm.handleServiceAdjustment / handleResetService) -/

/-- `handleServiceAdjustment`: overwrite the target service's adjusted
values with the explicitly supplied ones and recompute `isAdjusted`. -/
def handleServiceAdjustment (serviceId : String) (newDuration newPrice : Int)
    (reason : Option String) (services : List AdjustableService) : List AdjustableService :=
  services.map fun service =>
    if service.id = serviceId then
      { service with
        adjustedDuration := newDuration
        adjustedPrice := newPrice
        isAdjusted := (newDuration != service.baseDuration) || (newPrice != service.basePrice)
        adjustmentReason := reason }
    else service

/-- `handleResetService`: restore the target service's base values. -/
def handleResetService (serviceId : String) (services : List AdjustableService) :
    List AdjustableService :=
  services.map fun service =>
    if service.id = serviceId then
      { service with
        adjustedDuration := service.baseDuration
        adjustedPrice := service.basePrice
        isAdjusted := false
        adjustmentReason := none }
    else service

/-! ### Historical suggestions (CustomerSuggestionsModal) -/

/-- A `HistoricalAdjustment` suggestion as built by
`analyzeAdjustmentHistory` in `CustomerSuggestionsModal`. -/
structure Suggestion where
  serviceId : String
  serviceName : String
  averageDuration : Int
  averagePrice : Int
  lastDuration : Int
  lastPrice : Int
  frequency : Nat
  baseDuration : Int
  basePrice : Int
deriving DecidableEq, Repr

/-- `applySuggestions(useAverage)`: for every selected service that has a
suggestion and whose id is in `selectedSuggestions`, overwrite the adjusted
values with the last (or average) historical values, set `isAdjusted: true`
unconditionally, and synthesize the reason string. -/
def applySuggestions (useAverage : Bool) (suggestions : List Suggestion)
    (selectedSuggestions : List String) (selectedServices : List AdjustableService) :
    List AdjustableService :=
  selectedServices.map fun service =>
    match suggestions.find? (fun s => s.serviceId = service.id) with
    | some suggestion =>
        if selectedSuggestions.contains service.id then
          { service with
            adjustedDuration := if useAverage then suggestion.averageDuration
                                else suggestion.lastDuration
            adjustedPrice := if useAverage then suggestion.averagePrice
                             else suggestion.lastPrice
            isAdjusted := true
            adjustmentReason := some (if useAverage then
                "過去の平均値 (" ++ toString suggestion.frequency ++ "回の実績)"
              else "前回と同じ設定") }
        else service
    | none => service

/-! ### History Analyzer (api/customers/[id]/history POST) -/

/-- The per-service `(duration, price, appointmentDate)` tuples collected
by the analysis endpoint: iterate the customer's completed appointments,
sorted descending by `start`, and take every matching service entry. -/
def collectTuples (appointments : List Appointment) (clientId serviceId : String) :
    List (Int × Int × Int) :=
  let completedAppointments :=
    sortByKeyDesc (fun a => a.start)
      (appointments.filter fun a => a.clientId = clientId ∧ a.status = .completed)
  completedAppointments.flatMap fun a =>
    (a.services.filter fun s => s.id = serviceId).map fun s => (s.duration, s.price, a.start)

/-- Insert into a sorted-ascending duplicate-free list of keys. -/
def insertKeyAsc (a : Int) : List Int → List Int
  | [] => [a]
  | b :: l =>
      if a < b then a :: b :: l
      else if a = b then b :: l
      else b :: insertKeyAsc a l

/-- `Object.keys` of a frequency map whose keys are the values of `l`:
non-negative-integer object keys are iterated in ascending numeric order. -/
def keysAsc (l : List Int) : List Int :=
  l.foldl (fun acc v => insertKeyAsc v acc) []

/-- The `reduce` that picks the most common value:
`keys.reduce((a, b) => freq[a] > freq[b] ? a : b)` — no initial value, so
the first key seeds the fold and, on a frequency tie, `b` (the later
candidate) replaces the accumulator. -/
def jsMostCommon (l : List Int) : Option Int :=
  match keysAsc l with
  | [] => none
  | k :: ks => some (ks.foldl (fun a b => if l.count a > l.count b then a else b) k)

/-- The per-service analysis record returned by the history POST route. -/
structure HistoryStats where
  totalUsage : Nat
  averageDuration : Int
  averagePrice : Int
  mostCommonDuration : Int
  mostCommonPrice : Int
  latestDuration : Int
  latestPrice : Int
  recentTrendDuration : Int
  recentTrendPrice : Int
  lastAppointmentDate : Int
deriving DecidableEq, Repr

/-- The statistics the history POST route computes for one requested
service id; `none` when no tuples were collected (the route returns no
entry for that service). -/
def analysisFor (appointments : List Appointment) (clientId serviceId : String) :
    Option HistoryStats :=
  let adjustments := collectTuples appointments clientId serviceId
  match adjustments with
  | [] => none
  | latest :: _ =>
      let n : Int := adjustments.length
      let durations := adjustments.map fun t => t.1
      let prices := adjustments.map fun t => t.2.1
      let recent3 := adjustments.take 3
      some {
        totalUsage := adjustments.length
        averageDuration := jsRound durations.sum n
        averagePrice := jsRound prices.sum n
        mostCommonDuration := (jsMostCommon durations).getD 0
        mostCommonPrice := (jsMostCommon prices).getD 0
        latestDuration := latest.1
        latestPrice := latest.2.1
        recentTrendDuration := jsRound (recent3.map fun t => t.1).sum recent3.length
        recentTrendPrice := jsRound (recent3.map fun t => t.2.1).sum recent3.length
        lastAppointmentDate := latest.2.2 }

/-! ### Appointment routes (api/appointments POST, api/appointments/[id] PUT) -/

/-- The caller-supplied JSON body of the create route. Optional fields
model absent JSON keys; a `none` `start` also models the falsy empty
string. -/
structure CreateAppointmentInput where
  title : Option String
  start : Option Int
  endTime : Option Int
  clientId : Option String
  clientName : String
  phone : Option String
  services : List Service
  totalPrice : Option Int
  totalDuration : Option Int
  note : Option String
deriving DecidableEq, Repr

/-- `Math.max` fold computing the largest numeric id:
`appointments.reduce((max, a) => Math.max(max, parseInt(a.id) || 0), 0)`.
Ids the app itself creates are canonical decimal numerals, which is what
`String.toNat?` parses. -/
def maxNumericId (appointments : List Appointment) : Nat :=
  appointments.foldl (fun m a => max m ((a.id.toNat?).getD 0)) 0

/-- The POST handler of `api/appointments`: validate
`clientName`/`start`/`services`, assign `maxId + 1` as the id, build the
record — `title` defaulting to the service names joined with " & ",
`clientId` defaulting to the new id, `totalPrice`/`totalDuration` taken
from the caller with `|| 0`, `end` stored verbatim, status `scheduled` —
and append it. Returns the created appointment and the new store. -/
def createAppointment (input : CreateAppointmentInput) (appointments : List Appointment)
    (now : Int) : Except String (Appointment × List Appointment) :=
  match input.start with
  | none => .error "必須項目が不足しています"
  | some startValue =>
      if input.clientName = "" ∨ input.services.isEmpty then
        .error "必須項目が不足しています"
      else
        let newId := toString (maxNumericId appointments + 1)
        let appointment : Appointment := {
          id := newId
          title := jsOrString input.title
            (String.intercalate " & " (input.services.map fun s => s.name))
          start := startValue
          endTime := input.endTime
          clientId := jsOrString input.clientId newId
          clientName := input.clientName
          phone := jsOrString input.phone ""
          services := input.services
          totalPrice := jsOrZero input.totalPrice
          totalDuration := jsOrZero input.totalDuration
          note := jsOrString input.note ""
          status := .scheduled
          createdAt := now
          updatedAt := now }
        .ok (appointment, appointments ++ [appointment])

/-- A PUT body for `api/appointments/[id]`: any subset of the record's
fields (the handler spreads it over the existing record). -/
structure AppointmentPatch where
  title : Option String
  start : Option Int
  endTime : Option Int
  clientId : Option String
  clientName : Option String
  phone : Option String
  services : Option (List Service)
  totalPrice : Option Int
  totalDuration : Option Int
  note : Option String
  status : Option Status
  createdAt : Option Int
deriving DecidableEq, Repr

/-- `{ ...existingAppointment, ...updatedData, id: params.id, updatedAt: now }`. -/
def mergeAppointment (a : Appointment) (p : AppointmentPatch) (now : Int) : Appointment :=
  { id := a.id
    title := p.title.getD a.title
    start := p.start.getD a.start
    endTime := match p.endTime with | some v => some v | none => a.endTime
    clientId := p.clientId.getD a.clientId
    clientName := p.clientName.getD a.clientName
    phone := p.phone.getD a.phone
    services := p.services.getD a.services
    totalPrice := p.totalPrice.getD a.totalPrice
    totalDuration := p.totalDuration.getD a.totalDuration
    note := p.note.getD a.note
    status := p.status.getD a.status
    createdAt := p.createdAt.getD a.createdAt
    updatedAt := now }

/-- The PUT handler of `api/appointments/[id]`: find the appointment by
id (first match), 404 when absent, otherwise merge the patch over it and
store the result. No status check of any kind is performed. -/
def updateAppointment (id : String) (p : AppointmentPatch) (appointments : List Appointment)
    (now : Int) : Except String (Appointment × List Appointment) :=
  match appointments with
  | [] => .error "予約が見つかりません"
  | a :: rest =>
      if a.id = id then
        let updated := mergeAppointment a p now
        .ok (updated, updated :: rest)
      else
        match updateAppointment id p rest now with
        | .ok (updated, newRest) => .ok (updated, a :: newRest)
        | .error e => .error e

/-! ### Customer Statistics Projection (api/customers/[id] GET) -/

/-- The derived statistics block of the customer detail route. -/
structure CustomerStats where
  totalVisits : Nat
  totalSpent : Int
  averageSpent : Int
  lastVisit : Option Int
  favoriteServices : List String
deriving DecidableEq, Repr

/-- Bump `name` in an insertion-ordered association list of usage counts
(the model of `serviceCount[service.name] = (serviceCount[service.name] || 0) + 1`
on a plain object: string keys that are not array indexes keep insertion
order). -/
def bumpCount (name : String) : List (String × Nat) → List (String × Nat)
  | [] => [(name, 1)]
  | (k, c) :: rest =>
      if k = name then (k, c + 1) :: rest else (k, c) :: bumpCount name rest

/-- Usage counts of service names over a list of appointments, in
first-encountered order. -/
def serviceCounts (appointments : List Appointment) : List (String × Nat) :=
  appointments.foldl (fun acc a => a.services.foldl (fun acc2 s => bumpCount s.name acc2) acc) []

/-- The GET handler's statistics computation: filter the customer's
appointments, sort them descending by start, keep the completed ones, and
derive visits, spend, average, last visit, and the top-5 favorite services
(stable sort by count descending — JS sort is stable, so ties keep
first-encountered order — then `slice(0, 5)`). -/
def customerStats (appointments : List Appointment) (customerId : String) : CustomerStats :=
  let customerAppointments :=
    sortByKeyDesc (fun a => a.start) (appointments.filter fun a => a.clientId = customerId)
  let completedAppointments := customerAppointments.filter fun a => a.status = .completed
  let totalSpent := (completedAppointments.map fun a => a.totalPrice).sum
  let totalVisits := completedAppointments.length
  let averageSpent := if totalVisits > 0 then jsRound totalSpent totalVisits else 0
  let lastVisit := completedAppointments.head?.map fun a => a.start
  let favoriteServices :=
    ((sortByKeyDesc (fun p => (p.2 : Int)) (serviceCounts completedAppointments)).take 5).map
      fun p => p.1
  { totalVisits := totalVisits
    totalSpent := totalSpent
    averageSpent := averageSpent
    lastVisit := lastVisit
    favoriteServices := favoriteServices }

/-! ### Service catalog (api/services GET, api/services/[id] DELETE) -/

/-- A catalog entry (`Service` in the services routes). -/
structure CatalogService where
  id : String
  name : String
  duration : Int
  price : Int
  category : String
  description : Option String
  isActive : Bool
  createdAt : Int
  updatedAt : Int
deriving DecidableEq, Repr

/-- Character-list test: does the second list start with the first? -/
def matchesFront : List Char → List Char → Bool
  | [], _ => true
  | _ :: _, [] => false
  | a :: resta, b :: restb => a = b && matchesFront resta restb

/-- Character-list test: does the second list contain the first as a
contiguous subsequence? -/
def containsSeq (sub : List Char) : List Char → Bool
  | [] => sub.isEmpty
  | l@(_ :: rest) => matchesFront sub l || containsSeq sub rest

/-- JavaScript `hay.includes(sub)`. -/
def jsIncludes (hay sub : String) : Bool :=
  containsSeq sub.toList hay.toList

/-- The search predicate of the services GET route:
name, category, or (when present) description contains the lowercased
query. -/
def matchesSearch (searchLower : String) (s : CatalogService) : Bool :=
  jsIncludes s.name.toLower searchLower ||
  jsIncludes s.category.toLower searchLower ||
  (match s.description with
   | some d => jsIncludes d.toLower searchLower
   | none => false)

/-- Stable insertion into a list sorted ascending by name (model of the
stable JS `sort((a, b) => a.name.localeCompare(b.name))`, with Lean's
`compare` on strings standing in for the locale collation). -/
def insertByNameAsc (a : CatalogService) : List CatalogService → List CatalogService
  | [] => [a]
  | b :: l => if compare b.name a.name = .lt then b :: insertByNameAsc a l else a :: b :: l

/-- Stable sort of catalog services ascending by name. -/
def sortByNameAsc : List CatalogService → List CatalogService
  | [] => []
  | a :: l => insertByNameAsc a (sortByNameAsc l)

/-- The GET handler of `api/services`: apply the search filter (skipped
for an absent or empty query), the category filter (skipped for absent or
`'all'`), the `isActive` filter (applied whenever the parameter is
present: keep services whose `isActive` equals `param === 'true'`), then
sort by name. -/
def listServices (search category isActive : Option String)
    (services : List CatalogService) : List CatalogService :=
  let afterSearch :=
    match search with
    | some q => if q = "" then services else services.filter (matchesSearch q.toLower)
    | none => services
  let afterCategory :=
    match category with
    | some c => if c = "" ∨ c = "all" then afterSearch
                else afterSearch.filter fun s => s.category = c
    | none => afterSearch
  let afterActive :=
    match isActive with
    | some v => afterCategory.filter fun s => s.isActive = decide (v = "true")
    | none => afterCategory
  sortByNameAsc afterActive

/-- The DELETE handler of `api/services/[id]` (soft delete): find the
service by id (first match), 404 when absent, otherwise flip `isActive`
to `false`, refresh `updatedAt`, and keep everything else. Returns the
new store and the updated record. -/
def deactivateService (id : String) (services : List CatalogService) (now : Int) :
    Except String (List CatalogService × CatalogService) :=
  match services with
  | [] => .error "サービスが見つかりません"
  | s :: rest =>
      if s.id = id then
        let updated := { s with isActive := false, updatedAt := now }
        .ok (updated :: rest, updated)
      else
        match deactivateService id rest now with
        | .ok (newRest, updated) => .ok (s :: newRest, updated)
        | .error e => .error e

/-! ### Spec-side definitions and concrete fixtures -/

/-- The appointment derived-field invariant as the spec states it:
`totalPrice = Σ services[].price`, `totalDuration = Σ services[].duration`,
`end = start + totalDuration` (timestamps in minutes). -/
def appointmentTotalsInvariant (a : Appointment) : Prop :=
  a.totalPrice = (a.services.map fun s => s.price).sum ∧
  a.totalDuration = (a.services.map fun s => s.duration).sum ∧
  a.endTime = some (a.start + a.totalDuration)

instance (a : Appointment) : Decidable (appointmentTotalsInvariant a) := by
  unfold appointmentTotalsInvariant; infer_instance

/-- Fixture: the カット catalog entry wrapped as an unadjusted
`AdjustableService` (base 40 minutes, 4500 yen). -/
def demoAdj : AdjustableService :=
  { id := "1"
    name := "カット"
    baseDuration := 40
    adjustedDuration := 40
    basePrice := 4500
    adjustedPrice := 4500
    isAdjusted := false
    adjustmentReason := none }

/-- Fixture: a カット service snapshot at a given price. -/
def cutAt (price : Int) : Service :=
  { id := "s1", name := "カット", duration := 40, price := price }

/-- Fixture: an appointment record with the fields the claims exercise. -/
def mkAppt (id : String) (start : Int) (clientId : String) (status : Status)
    (services : List Service) (totalPrice : Int) : Appointment :=
  { id := id
    title := "t"
    start := start
    endTime := some (start + 40)
    clientId := clientId
    clientName := "c"
    phone := ""
    services := services
    totalPrice := totalPrice
    totalDuration := 40
    note := ""
    status := status
    createdAt := 0
    updatedAt := 0 }

/-- Fixture for the History Analyzer example: customer "1" has three
completed appointments with カット at 4500, 4000, 4000 (most recent
first), one cancelled appointment (price 9999) and customer "2" has a
completed one (price 8888); the last two must not contribute. -/
def demoAppts : List Appointment :=
  [ mkAppt "1" 300 "1" .completed [cutAt 4500] 4500,
    mkAppt "2" 200 "1" .completed [cutAt 4000] 4000,
    mkAppt "3" 100 "1" .completed [cutAt 4000] 4000,
    mkAppt "4" 400 "1" .cancelled [cutAt 9999] 9999,
    mkAppt "5" 500 "2" .completed [cutAt 8888] 8888 ]

/-- Fixture for the mode tie-break: カット at 4500 and 4000, once each. -/
def tieAppts : List Appointment :=
  [ mkAppt "1" 300 "1" .completed [cutAt 4500] 4500,
    mkAppt "2" 200 "1" .completed [cutAt 4000] 4000 ]

/-- Fixture for the statistics projection example: one completed
appointment at 8000 and one cancelled at 5000 for customer "7". -/
def statsAppts : List Appointment :=
  [ mkAppt "10" 100 "7" .completed [cutAt 8000] 8000,
    mkAppt "11" 200 "7" .cancelled [cutAt 5000] 5000 ]

/-- Fixture: a create body that omits the totals (and the caller-side
recomputation) while selecting a priced service. -/
def inconsistentCreateInput : CreateAppointmentInput :=
  { title := none
    start := some 100
    endTime := none
    clientId := none
    clientName := "A"
    phone := none
    services := [cutAt 4500]
    totalPrice := none
    totalDuration := none
    note := none }

/-- Fixture: a create body whose caller-supplied derived fields are
consistent with its service list (what the booking-flow client sends). -/
def consistentCreateInput : CreateAppointmentInput :=
  { title := none
    start := some 100
    endTime := some 140
    clientId := none
    clientName := "A"
    phone := none
    services := [cutAt 4500]
    totalPrice := some 4500
    totalDuration := some 40
    note := none }

/-- Fixture: a store holding one cancelled appointment. -/
def cancelledStore : List Appointment :=
  [ mkAppt "1" 300 "1" .cancelled [cutAt 4500] 4500 ]

/-- Fixture: a PUT body that only sets `status: 'completed'`. -/
def completePatch : AppointmentPatch :=
  { title := none
    start := none
    endTime := none
    clientId := none
    clientName := none
    phone := none
    services := none
    totalPrice := none
    totalDuration := none
    note := none
    status := some .completed
    createdAt := none }

/-- Fixture: the empty PUT body. -/
def emptyPatch : AppointmentPatch :=
  { title := none
    start := none
    endTime := none
    clientId := none
    clientName := none
    phone := none
    services := none
    totalPrice := none
    totalDuration := none
    note := none
    status := none
    createdAt := none }

/-- Fixture: a suggestion whose historical values coincide with the
service's base values (the customer always paid the standard price). -/
def sameAsBaseSuggestion : Suggestion :=
  { serviceId := "1"
    serviceName := "カット"
    averageDuration := 40
    averagePrice := 4500
    lastDuration := 40
    lastPrice := 4500
    frequency := 1
    baseDuration := 40
    basePrice := 4500 }

/-- Fixture: a suggestion whose last values differ from base. -/
def discountedSuggestion : Suggestion :=
  { serviceId := "1"
    serviceName := "カット"
    averageDuration := 50
    averagePrice := 4000
    lastDuration := 50
    lastPrice := 4000
    frequency := 2
    baseDuration := 40
    basePrice := 4500 }

/-- Fixture: an active カット catalog entry. -/
def catalogCut : CatalogService :=
  { id := "1"
    name := "カット"
    duration := 40
    price := 4500
    category := "カット"
    description := none
    isActive := true
    createdAt := 0
    updatedAt := 0 }

/-- Fixture: an active カラー catalog entry. -/
def catalogColor : CatalogService :=
  { catalogCut with
    id := "2"
    name := "カラー"
    duration := 90
    price := 8000
    category := "カラー" }

/-- Fixture: `demoAdj` after applying `discountedSuggestion` with the
"same as last time" action. -/
def suggestedAdj : AdjustableService :=
  { demoAdj with
    adjustedDuration := 50
    adjustedPrice := 4000
    isAdjusted := true
    adjustmentReason := some "前回と同じ設定" }

/-- Fixture: the appointment `createAppointment` builds from
`consistentCreateInput` on an empty store at time 0. -/
def demoCreatedAppt : Appointment :=
  { id := "1"
    title := "カット"
    start := 100
    endTime := some 140
    clientId := "1"
    clientName := "A"
    phone := ""
    services := [cutAt 4500]
    totalPrice := 4500
    totalDuration := 40
    note := ""
    status := .scheduled
    createdAt := 0
    updatedAt := 0 }

/-- Fixture: `catalogCut` after deactivation at time 5. -/
def deactivatedCut : CatalogService :=
  { catalogCut with isActive := false, updatedAt := 5 }

/-! ## Lemmas -/

/-- `jsRound` is `Math.round` of the exact quotient: rounding half up. -/
theorem jsRound_eq_round (n d : Int) (hd : 0 < d) :
    jsRound n d = round ((n : ℚ) / (d : ℚ)) := by
  have h2d : (0 : ℤ) ≤ 2 * d := by positivity
  have hcast : (((2 * d).toNat : ℚ)) = ((2 * d : ℤ) : ℚ) := by
    exact_mod_cast congrArg (fun z : ℤ => (z : ℚ)) (Int.toNat_of_nonneg h2d)
  have key : (n : ℚ) / (d : ℚ) + 1 / 2 = ((2 * n + d : ℤ) : ℚ) / (((2 * d).toNat : ℕ) : ℚ) := by
    rw [hcast]
    have hdq : (d : ℚ) ≠ 0 := Int.cast_ne_zero.mpr (ne_of_gt hd)
    push_cast
    field_simp
    ring
  rw [round_eq, key, Rat.floor_intCast_div_natCast]
  unfold jsRound
  rw [Int.fdiv_eq_ediv _ h2d]
  rw [Int.toNat_of_nonneg h2d]

theorem insertByKeyDesc_perm {α : Type} (key : α → Int) (a : α) (l : List α) :
    List.Perm (insertByKeyDesc key a l) (a :: l) := by
  induction l with
  | nil => simp [insertByKeyDesc]
  | cons b t ih =>
      simp only [insertByKeyDesc]
      by_cases h : key b > key a
      · simp only [h, if_pos]
        exact List.Perm.trans (List.Perm.cons b ih) (List.Perm.swap a b t)
      · simp [h]

theorem sortByKeyDesc_perm {α : Type} (key : α → Int) (l : List α) :
    List.Perm (sortByKeyDesc key l) l := by
  induction l with
  | nil => simp [sortByKeyDesc]
  | cons a t ih =>
      exact List.Perm.trans (insertByKeyDesc_perm key a (sortByKeyDesc key t))
        (List.Perm.cons a ih)

theorem mem_sortByKeyDesc {α : Type} (key : α → Int) (l : List α) (x : α) :
    x ∈ sortByKeyDesc key l ↔ x ∈ l :=
  (sortByKeyDesc_perm key l).mem_iff

/-- Filtering after a stable descending insertion ignores an inserted
element that fails the predicate. -/
theorem filter_insertByKeyDesc_neg {α : Type} (key : α → Int) (p : α → Bool)
    (a : α) (l : List α) (ha : p a = false) :
    (insertByKeyDesc key a l).filter p = l.filter p := by
  induction l with
  | nil => simp [insertByKeyDesc, List.filter, ha]
  | cons b t ih =>
      simp only [insertByKeyDesc]
      by_cases h : key b > key a
      · simp only [h, if_pos, List.filter]
        cases hb : p b <;> simp [hb, ih]
      · simp [h, List.filter, ha]

/-- The stable descending sort is sorted: later elements never have a
larger key. -/
theorem pairwise_insertByKeyDesc {α : Type} (key : α → Int) (a : α) (l : List α)
    (h : l.Pairwise fun x y => key y ≤ key x) :
    (insertByKeyDesc key a l).Pairwise fun x y => key y ≤ key x := by
  induction l with
  | nil => simp [insertByKeyDesc]
  | cons b t ih =>
      simp only [insertByKeyDesc]
      rcases List.pairwise_cons.mp h with ⟨hb, ht⟩
      by_cases hk : key b > key a
      · simp only [hk, if_pos]
        refine List.pairwise_cons.mpr ⟨?_, ih ht⟩
        intro x hx
        rcases List.mem_cons.mp ((insertByKeyDesc_perm key a t).mem_iff.mp hx) with hxa | hxt
        · exact hxa ▸ le_of_lt hk
        · exact hb x hxt
      · simp only [hk, if_neg]
        refine List.pairwise_cons.mpr ⟨?_, h⟩
        intro x hx
        rcases List.mem_cons.mp hx with hxb | hxt
        · exact hxb ▸ le_of_not_lt hk
        · exact le_trans (hb x hxt) (le_of_not_lt hk)

theorem pairwise_sortByKeyDesc {α : Type} (key : α → Int) (l : List α) :
    (sortByKeyDesc key l).Pairwise fun x y => key y ≤ key x := by
  induction l with
  | nil => simp [sortByKeyDesc]
  | cons a t ih => exact pairwise_insertByKeyDesc key a _ ih

/-- The head of the stable descending sort is an element of maximal key. -/
theorem sortByKeyDesc_head_max {α : Type} (key : α → Int) (l : List α) (a : α)
    (h : (sortByKeyDesc key l).head? = some a) :
    a ∈ l ∧ ∀ x ∈ l, key x ≤ key a := by
  rcases hs : sortByKeyDesc key l with _ | ⟨b, t⟩
  · rw [hs] at h; simp at h
  · rw [hs] at h
    simp only [List.head?] at h
    injection h with hba
    subst hba
    have hperm := sortByKeyDesc_perm key l
    rw [hs] at hperm
    constructor
    · exact hperm.mem_iff.mp (List.mem_cons_self b t)
    · intro x hx
      rcases List.mem_cons.mp (hperm.mem_iff.mpr hx) with hxa | hxt
      · exact le_of_eq (congrArg key hxa)
      · have hp := pairwise_sortByKeyDesc key l
        rw [hs] at hp
        exact (List.pairwise_cons.mp hp).1 x hxt

/-- Stability of the descending sort: elements whose key equals the
inserted element's key keep their positions behind it. -/
theorem filter_insertByKeyDesc_keyEq {α : Type} (key : α → Int) (a : α) (l : List α) :
    (insertByKeyDesc key a l).filter (fun x => key x = key a) =
      a :: l.filter (fun x => key x = key a) := by
  induction l with
  | nil => simp [insertByKeyDesc]
  | cons b t ih =>
      simp only [insertByKeyDesc]
      by_cases h : key b > key a
      · have hb : ¬ (key b = key a) := by omega
        simp [h, List.filter, hb, ih]
      · simp [h, List.filter]

/-- Stability of the descending sort: for every key value, the elements
carrying it appear in the sorted list in their original order. -/
theorem filter_keyEq_sortByKeyDesc {α : Type} (key : α → Int) (c : Int) (l : List α) :
    (sortByKeyDesc key l).filter (fun x => key x = c) = l.filter (fun x => key x = c) := by
  induction l with
  | nil => simp [sortByKeyDesc]
  | cons a t ih =>
      simp only [sortByKeyDesc]
      by_cases hc : key a = c
      · subst hc
        rw [filter_insertByKeyDesc_keyEq key a _]
        simp [List.filter, ih]
      · rw [filter_insertByKeyDesc_neg key _ a _ (by simp [hc])]
        simp [List.filter, hc, ih]

/-- The head of a descending-sorted list bounds every member's key. -/
theorem head_pairwise_max {α : Type} (key : α → Int) (l : List α) (a : α)
    (hp : l.Pairwise fun x y => key y ≤ key x) (h : l.head? = some a) :
    ∀ x ∈ l, key x ≤ key a := by
  rcases l with _ | ⟨b, t⟩
  · simp at h
  · simp only [List.head?] at h
    injection h with hba
    subst hba
    intro x hx
    rcases List.mem_cons.mp hx with hxa | hxt
    · exact le_of_eq (congrArg key hxa)
    · exact (List.pairwise_cons.mp hp).1 x hxt

theorem mem_insertKeyAsc (a : Int) (l : List Int) (x : Int) :
    x ∈ insertKeyAsc a l ↔ x = a ∨ x ∈ l := by
  induction l with
  | nil => simp [insertKeyAsc]
  | cons b t ih =>
      simp only [insertKeyAsc]
      by_cases h1 : a < b
      · simp [h1, List.mem_cons]
      · by_cases h2 : a = b
        · subst h2
          simp [h1, List.mem_cons]
        · simp only [h1, h2, if_neg, if_false, List.mem_cons, ih]
          tauto

theorem mem_keysAsc (l : List Int) (x : Int) : x ∈ keysAsc l ↔ x ∈ l := by
  have main : ∀ (l₂ : List Int) (acc : List Int) (y : Int),
      y ∈ l₂.foldl (fun acc2 v => insertKeyAsc v acc2) acc ↔ y ∈ acc ∨ y ∈ l₂ := by
    intro l₂
    induction l₂ with
    | nil => intro acc y; simp
    | cons b t ih =>
        intro acc y
        simp only [List.foldl_cons, ih, mem_insertKeyAsc, List.mem_cons]
        tauto
  unfold keysAsc
  rw [main l [] x]
  simp

/-- The seedless `reduce((a, b) => cnt a > cnt b ? a : b)`: the result
splits the candidate list so that everything before it has count at most
its own and everything after it has strictly smaller count — i.e. the last
candidate attaining the maximum wins. -/
theorem foldl_pick_lastMax (cnt : Int → Nat) :
    ∀ (ks : List Int) (k : Int),
    ∃ l₁ l₂, k :: ks = l₁ ++ (ks.foldl (fun a b => if cnt a > cnt b then a else b) k) :: l₂ ∧
      (∀ x ∈ l₁, cnt x ≤ cnt (ks.foldl (fun a b => if cnt a > cnt b then a else b) k)) ∧
      (∀ x ∈ l₂, cnt x < cnt (ks.foldl (fun a b => if cnt a > cnt b then a else b) k)) := by
  intro ks
  induction ks with
  | nil =>
      intro k
      exact ⟨[], [], by simp, by simp, by simp⟩
  | cons b t ih =>
      intro k
      rw [List.foldl_cons]
      by_cases hkb : cnt k > cnt b
      · rw [if_pos hkb]
        rcases ih k with ⟨l₁, l₂, heq, hle, hlt⟩
        rcases l₁ with _ | ⟨h₁, t₁⟩
        · rw [List.nil_append] at heq
          injection heq with hk ht
          refine ⟨[], b :: l₂, ?_, by simp, ?_⟩
          · rw [List.nil_append]
            rw [← hk, ← ht]
          · intro x hx
            rcases List.mem_cons.mp hx with hxb | hxl
            · subst hxb
              rw [← hk]
              exact hkb
            · exact hlt x hxl
        · rw [List.cons_append] at heq
          injection heq with hk ht
          subst hk
          refine ⟨k :: b :: t₁, l₂, ?_, ?_, hlt⟩
          · conv_lhs => rw [ht]
            simp
          · have hkle : cnt k ≤
                cnt (t.foldl (fun a b => if cnt a > cnt b then a else b) k) :=
              hle k (List.mem_cons_self _ _)
            intro x hx
            rcases List.mem_cons.mp hx with hxk | hx2
            · subst hxk
              exact hkle
            · rcases List.mem_cons.mp hx2 with hxb | hxt
              · subst hxb
                exact le_trans (le_of_lt hkb) hkle
              · exact hle x (List.mem_cons_of_mem _ hxt)
      · rw [if_neg hkb]
        rcases ih b with ⟨l₁, l₂, heq, hle, hlt⟩
        rcases l₁ with _ | ⟨h₁, t₁⟩
        · rw [List.nil_append] at heq
          injection heq with hk ht
          refine ⟨[k], l₂, ?_, ?_, hlt⟩
          · rw [List.cons_append, List.nil_append]
            rw [← hk, ← ht]
          · intro x hx
            have hxk : x = k := by simpa using hx
            subst hxk
            rw [← hk]
            exact le_of_not_lt hkb
        · rw [List.cons_append] at heq
          injection heq with hk ht
          subst hk
          refine ⟨k :: b :: t₁, l₂, ?_, ?_, hlt⟩
          · conv_lhs => rw [ht]
            simp
          · have hble : cnt b ≤
                cnt (t.foldl (fun a b => if cnt a > cnt b then a else b) b) :=
              hle b (List.mem_cons_self _ _)
            intro x hx
            rcases List.mem_cons.mp hx with hxk | hx2
            · subst hxk
              exact le_trans (le_of_not_lt hkb) hble
            · rcases List.mem_cons.mp hx2 with hxb | hxt
              · subst hxb
                exact hble
              · exact hle x (List.mem_cons_of_mem _ hxt)

/-- A successful PUT decomposes the store at the first record carrying the
requested id; the stored result is the merge of the patch over it. -/
theorem updateAppointment_ok (id : String) (p : AppointmentPatch) (now : Int) :
    ∀ (l : List Appointment) (a : Appointment) (st : List Appointment),
    updateAppointment id p l now = .ok (a, st) →
    ∃ pre post old, l = pre ++ old :: post ∧ (∀ x ∈ pre, x.id ≠ id) ∧ old.id = id ∧
      a = mergeAppointment old p now ∧ st = pre ++ a :: post := by
  intro l
  induction l with
  | nil => intro a st h; simp [updateAppointment] at h
  | cons b t ih =>
      intro a st h
      simp only [updateAppointment] at h
      by_cases hid : b.id = id
      · rw [if_pos hid] at h
        injection h with h2
        injection h2 with ha hst
        exact ⟨[], t, b, by simp, by simp, hid, ha.symm, by simp [← hst, ha]⟩
      · rw [if_neg hid] at h
        rcases hrec : updateAppointment id p t now with e | pr
        · rw [hrec] at h; exact absurd h (by simp)
        · rw [hrec] at h
          rcases pr with ⟨a2, st2⟩
          injection h with h2
          injection h2 with ha hst
          rcases ih a2 st2 hrec with ⟨pre, post, old, hteq, hpre, hold, hmerge, hst2⟩
          refine ⟨b :: pre, post, old, by simp [hteq], ?_, hold, ha ▸ hmerge, ?_⟩
          · intro x hx
            rcases List.mem_cons.mp hx with hxb | hxp
            · exact hxb ▸ hid
            · exact hpre x hxp
          · rw [← hst, hst2, ← ha]
            simp

/-- A successful soft delete decomposes the store at the first record
carrying the requested id; only that record changes, and only its
`isActive` and `updatedAt` fields. -/
theorem deactivateService_ok (id : String) (now : Int) :
    ∀ (l newStore : List CatalogService) (s : CatalogService),
    deactivateService id l now = .ok (newStore, s) →
    ∃ pre post orig, l = pre ++ orig :: post ∧ (∀ x ∈ pre, x.id ≠ id) ∧ orig.id = id ∧
      s = { orig with isActive := false, updatedAt := now } ∧ newStore = pre ++ s :: post := by
  intro l
  induction l with
  | nil => intro ns s h; simp [deactivateService] at h
  | cons b t ih =>
      intro ns s h
      simp only [deactivateService] at h
      by_cases hid : b.id = id
      · rw [if_pos hid] at h
        injection h with h2
        injection h2 with hns hs
        exact ⟨[], t, b, by simp, by simp, hid, hs.symm, by simp [← hns, hs]⟩
      · rw [if_neg hid] at h
        rcases hrec : deactivateService id t now with e | pr
        · rw [hrec] at h; exact absurd h (by simp)
        · rw [hrec] at h
          rcases pr with ⟨ns2, s2⟩
          injection h with h2
          injection h2 with hns hs
          rcases ih ns2 s2 hrec with ⟨pre, post, orig, hteq, hpre, hold, hupd, hns2⟩
          refine ⟨b :: pre, post, orig, by simp [hteq], ?_, hold, hs ▸ hupd, ?_⟩
          · intro x hx
            rcases List.mem_cons.mp hx with hxb | hxp
            · exact hxb ▸ hid
            · exact hpre x hxp
          · rw [← hns, hns2, ← hs]
            simp

theorem insertByNameAsc_perm (a : CatalogService) (l : List CatalogService) :
    List.Perm (insertByNameAsc a l) (a :: l) := by
  induction l with
  | nil => simp [insertByNameAsc]
  | cons b t ih =>
      simp only [insertByNameAsc]
      by_cases h : compare b.name a.name = Ordering.lt
      · simp only [h, if_pos]
        exact List.Perm.trans (List.Perm.cons b ih) (List.Perm.swap a b t)
      · simp [h]

theorem mem_sortByNameAsc (l : List CatalogService) (x : CatalogService) :
    x ∈ sortByNameAsc l ↔ x ∈ l := by
  induction l with
  | nil => simp [sortByNameAsc]
  | cons a t ih =>
      simp only [sortByNameAsc]
      rw [(insertByNameAsc_perm a (sortByNameAsc t)).mem_iff]
      simp [ih]

/-! ## Claim theorems -/

/-- C2 (code bug evidence): the PUT route accepts an update of a
`cancelled` appointment that sets `status: 'completed'` — it succeeds
silently and overwrites the stored record, instead of rejecting the
transition with an invalid-state error. -/
theorem updateAppointment_allows_cancelled_to_completed :
    ((updateAppointment "1" completePatch cancelledStore 999).toOption.map
        fun r => r.1.status) = some .completed ∧
    ((updateAppointment "1" completePatch cancelledStore 999).toOption.map
        fun r => r.2.map fun a => a.status) = some [.completed] ∧
    cancelledStore.map (fun a => a.status) = [.cancelled] := by
  decide

/-- C9 (code bug evidence): the bulk percentage path applies no `≥ 0`
clamp — `percentage(-200)` on base price 4500 stores `-4500` — while the
individual preset path (`handlePricePreset`) does clamp the same
adjustment to 0. -/
theorem percentage_bulk_produces_negative_price :
    (applyBulkToService .percentage (-200) 0 "r" demoAdj).adjustedPrice = -4500 ∧
    (applyBulkToService .percentage (-200) 0 "r" demoAdj).adjustedPrice < 0 ∧
    handlePricePreset 4500 (.percentage (-200)) = 0 := by
  decide

/-- C1 (counterexample): a create body that selects a 4500-yen service
but omits `totalPrice`/`totalDuration` is stored with totals 0 — the
route takes the derived fields from the caller (`totalPrice || 0`)
instead of recomputing them from the service list, so the stored record
violates the totals invariant. -/
theorem createAppointment_defaults_totals_to_zero :
    ((createAppointment inconsistentCreateInput [] 0).toOption.map
        fun r => r.1.totalPrice) = some 0 ∧
    (inconsistentCreateInput.services.map fun s => s.price).sum = 4500 ∧
    ((createAppointment inconsistentCreateInput [] 0).toOption.map
        fun r => decide (appointmentTotalsInvariant r.1)) = some false := by
  decide

/-- C5 (counterexample): applying the "same as last time" suggestion to a
service whose historical values equal its base values sets
`isAdjusted: true` unconditionally, breaking the invariant
`isAdjusted == (adjustedDuration != baseDuration || adjustedPrice != basePrice)`
even though the input satisfied it. -/
theorem applySuggestions_marks_unchanged_service_adjusted :
    adjustableInvariant demoAdj ∧
    ((applySuggestions false [sameAsBaseSuggestion] ["1"] [demoAdj]).map
        fun s => decide (adjustableInvariant s)) = [false] := by
  decide

/-- C7 (counterexample): with カット used once at 4500 and once at 4000
(a frequency tie), the first candidate in key-iteration order is 4000,
but the analysis reports `mostCommonPrice = 4500` — on a tie the reduce
`freq[a] > freq[b] ? a : b` keeps the later candidate, not the first. -/
theorem mostCommonPrice_tie_takes_later_candidate :
    ((collectTuples tieAppts "1" "s1").map fun t => t.2.1) = [4500, 4000] ∧
    keysAsc ((collectTuples tieAppts "1" "s1").map fun t => t.2.1) = [4000, 4500] ∧
    ((collectTuples tieAppts "1" "s1").map fun t => t.2.1).count 4000 = 1 ∧
    ((collectTuples tieAppts "1" "s1").map fun t => t.2.1).count 4500 = 1 ∧
    ((analysisFor tieAppts "1" "s1").map fun h => h.mostCommonPrice) = some 4500 ∧
    (4500 : Int) ≠ 4000 := by
  decide

/-- C3: the Adjustment Engine's mode formulas. The bulk percentage mode
computes `round(basePrice * (1 + pct/100))` (`round` = half-up, as
`Math.round`), the fixed mode `max(0, basePrice + delta)`, the time mode
(for a nonzero delta — a zero delta means no time directive) and the
individual duration preset `max(5, baseDuration + delta)`; and the four
spec examples: percentage(−20) on 4500 → 3600, fixed(−500) on 4500 →
4000, time(+10) on 40 → 50, time(−50) on 40 → 5. -/
theorem adjustmentEngine_mode_formulas :
    (∀ (s : AdjustableService) (pct : Int) (r : String),
      (applyBulkToService .percentage pct 0 r s).adjustedPrice
        = round ((s.basePrice : ℚ) * (1 + (pct : ℚ) / 100))) ∧
    (∀ (s : AdjustableService) (delta : Int) (r : String),
      (applyBulkToService .fixed delta 0 r s).adjustedPrice
        = max 0 (s.basePrice + delta)) ∧
    (∀ (s : AdjustableService) (delta : Int) (r : String), delta ≠ 0 →
      (applyBulkToService .time 0 delta r s).adjustedDuration
        = max 5 (s.baseDuration + delta)) ∧
    (∀ (base delta : Int), handleDurationPreset base delta = max 5 (base + delta)) ∧
    (applyBulkToService .percentage (-20) 0 "" demoAdj).adjustedPrice = 3600 ∧
    (applyBulkToService .fixed (-500) 0 "" demoAdj).adjustedPrice = 4000 ∧
    (applyBulkToService .time 0 10 "" demoAdj).adjustedDuration = 50 ∧
    (applyBulkToService .time 0 (-50) "" demoAdj).adjustedDuration = 5 := by
  refine ⟨?_, ?_, ?_, ?_, by decide, by decide, by decide, by decide⟩
  · intro s pct r
    have h : (applyBulkToService .percentage pct 0 r s).adjustedPrice
        = jsRound (s.basePrice * (100 + pct)) 100 := rfl
    rw [h, jsRound_eq_round _ _ (by norm_num)]
    congr 1
    push_cast
    ring
  · intro s delta r
    rfl
  · intro s delta r hd
    simp [applyBulkToService, hd]
  · intro base delta
    rfl

/-- C3 witness: the time-mode formula applied at delta = −50 on the
カット base duration 40. -/
theorem adjustmentEngine_mode_formulas_witness :
    (applyBulkToService .time 0 (-50) "x" demoAdj).adjustedDuration
      = max 5 (demoAdj.baseDuration + (-50)) :=
  adjustmentEngine_mode_formulas.2.2.1 demoAdj (-50) "x" (by decide)

/-- C10: bulk apply reads only a service's identity and base fields —
never the current adjusted values — so applying the same directive twice
yields exactly what applying it once yields. -/
theorem handleApply_idempotent :
    (∀ (t : AdjustmentType) (p tm : Int) (r : String) (s₁ s₂ : AdjustableService),
      s₁.id = s₂.id → s₁.name = s₂.name → s₁.baseDuration = s₂.baseDuration →
      s₁.basePrice = s₂.basePrice →
      applyBulkToService t p tm r s₁ = applyBulkToService t p tm r s₂) ∧
    (∀ (t : AdjustmentType) (p tm : Int) (r : String) (l : List AdjustableService),
      handleApply t p tm r (handleApply t p tm r l) = handleApply t p tm r l) := by
  have base : ∀ (t : AdjustmentType) (p tm : Int) (r : String) (s₁ s₂ : AdjustableService),
      s₁.id = s₂.id → s₁.name = s₂.name → s₁.baseDuration = s₂.baseDuration →
      s₁.basePrice = s₂.basePrice →
      applyBulkToService t p tm r s₁ = applyBulkToService t p tm r s₂ := by
    intro t p tm r s₁ s₂ h1 h2 h3 h4
    cases s₁
    cases s₂
    simp only at h1 h2 h3 h4
    subst h1
    subst h2
    subst h3
    subst h4
    cases t <;> simp [applyBulkToService]
  refine ⟨base, ?_⟩
  intro t p tm r l
  simp only [handleApply, List.map_map]
  apply List.map_congr_left
  intro s _
  show applyBulkToService t p tm r (applyBulkToService t p tm r s) = applyBulkToService t p tm r s
  apply base <;> (cases t <;> rfl)

/-- C10 witness: the bulk computation ignores the differing adjusted
values of `demoAdj` and `suggestedAdj` (same base fields), and applying
the −20% directive twice to the カット fixture equals applying it once. -/
theorem handleApply_idempotent_witness :
    applyBulkToService .percentage (-20) 0 "w" demoAdj
      = applyBulkToService .percentage (-20) 0 "w" suggestedAdj ∧
    handleApply .percentage (-20) 0 "w" (handleApply .percentage (-20) 0 "w" [demoAdj])
      = handleApply .percentage (-20) 0 "w" [demoAdj] :=
  ⟨handleApply_idempotent.1 .percentage (-20) 0 "w" demoAdj suggestedAdj rfl rfl rfl rfl,
   handleApply_idempotent.2 .percentage (-20) 0 "w" [demoAdj]⟩

/-- C4: on the spec's example — customer "1" with completed カット
appointments at prices 4500, 4000, 4000 (most recent first), plus a
cancelled appointment (9999) of the same customer and a completed one of
another customer (8888) — the analysis returns latestPrice 4500,
averagePrice 4167, mostCommonPrice 4000, recentTrendPrice 4167 over
exactly 3 uses; and prepending any appointment that is not a completed
appointment of the analysed customer never changes the analysis. -/
theorem historyAnalyzer_example :
    ((analysisFor demoAppts "1" "s1").map fun h => h.latestPrice) = some 4500 ∧
    ((analysisFor demoAppts "1" "s1").map fun h => h.averagePrice) = some 4167 ∧
    ((analysisFor demoAppts "1" "s1").map fun h => h.mostCommonPrice) = some 4000 ∧
    ((analysisFor demoAppts "1" "s1").map fun h => h.recentTrendPrice) = some 4167 ∧
    ((analysisFor demoAppts "1" "s1").map fun h => h.totalUsage) = some 3 ∧
    (∀ (a : Appointment) (appts : List Appointment) (cid sid : String),
      ¬(a.clientId = cid ∧ a.status = .completed) →
      analysisFor (a :: appts) cid sid = analysisFor appts cid sid) := by
  refine ⟨by decide, by decide, by decide, by decide, by decide, ?_⟩
  intro a appts cid sid h
  unfold analysisFor collectTuples
  rw [List.filter_cons_of_neg (by simpa using h)]

/-- C4 witness: prepending a second cancelled appointment of customer "1"
leaves the analysis unchanged. -/
theorem historyAnalyzer_example_witness :
    analysisFor (mkAppt "9" 450 "1" .cancelled [cutAt 7777] 7777 :: demoAppts) "1" "s1"
      = analysisFor demoAppts "1" "s1" :=
  historyAnalyzer_example.2.2.2.2.2 (mkAppt "9" 450 "1" .cancelled [cutAt 7777] 7777)
    demoAppts "1" "s1" (by decide)

/-- C7 (amended): for any nonempty list of collected values, the
most-common computation returns a collected value of maximal frequency,
and on a frequency tie the LAST candidate in key-iteration order
(ascending numeric value) wins: every candidate iterated after the result
has strictly smaller frequency, every one before it at most the result's
frequency. -/
theorem mostCommon_is_last_max :
    ∀ (l : List Int), l ≠ [] →
    ∃ r ks₁ ks₂, jsMostCommon l = some r ∧
      keysAsc l = ks₁ ++ r :: ks₂ ∧
      r ∈ l ∧
      (∀ x ∈ l, l.count x ≤ l.count r) ∧
      (∀ x ∈ ks₁, l.count x ≤ l.count r) ∧
      (∀ x ∈ ks₂, l.count x < l.count r) := by
  intro l hl
  rcases hk : keysAsc l with _ | ⟨k, ks⟩
  · exfalso
    rcases List.exists_mem_of_ne_nil l hl with ⟨x, hx⟩
    have hmem := (mem_keysAsc l x).mpr hx
    rw [hk] at hmem
    simp at hmem
  · rcases foldl_pick_lastMax (fun v => l.count v) ks k with ⟨ks₁, ks₂, heq, hle, hlt⟩
    refine ⟨ks.foldl (fun a b => if l.count a > l.count b then a else b) k, ks₁, ks₂,
      ?_, ?_, ?_, ?_, hle, hlt⟩
    · unfold jsMostCommon
      rw [hk]
    · exact heq

    · have hmem : ks.foldl (fun a b => if l.count a > l.count b then a else b) k ∈ k :: ks := by
        rw [heq]
        exact List.mem_append.mpr (Or.inr (List.mem_cons_self _ _))
      exact (mem_keysAsc l _).mp (by rw [hk]; exact hmem)
    · intro x hx
      have hxk : x ∈ k :: ks := by
        rw [← hk]
        exact (mem_keysAsc l x).mpr hx
      rw [heq] at hxk
      rcases List.mem_append.mp hxk with h1 | h2
      · exact hle x h1
      · rcases List.mem_cons.mp h2 with hxr | hxl
        · exact le_of_eq (congrArg l.count hxr)
        · exact le_of_lt (hlt x hxl)

/-- C7 amended witness: the analysis yields a most-common value on the
tie fixture. -/
theorem mostCommon_is_last_max_witness :
    (jsMostCommon [(4500 : Int), 4000]).isSome = true := by
  rcases mostCommon_is_last_max [(4500 : Int), 4000] (by decide) with ⟨r, _, _, h, _⟩
  rw [h]
  rfl

/-- C5 (amended): individual adjustment save, reset, and bulk apply all
maintain `isAdjusted == (adjustedDuration != baseDuration || adjustedPrice != basePrice)`
(bulk apply even forces it); applying historical suggestions maintains it
only under the proviso that every applied suggestion's values differ from
the target's base values — without that proviso it sets `isAdjusted`
to `true` unconditionally. -/
theorem adjustment_operations_invariant :
    (∀ (sid : String) (nd np : Int) (r : Option String) (l : List AdjustableService),
      (∀ s ∈ l, adjustableInvariant s) →
      ∀ s ∈ handleServiceAdjustment sid nd np r l, adjustableInvariant s) ∧
    (∀ (sid : String) (l : List AdjustableService),
      (∀ s ∈ l, adjustableInvariant s) →
      ∀ s ∈ handleResetService sid l, adjustableInvariant s) ∧
    (∀ (t : AdjustmentType) (p tm : Int) (r : String) (l : List AdjustableService),
      ∀ s ∈ handleApply t p tm r l, adjustableInvariant s) ∧
    (∀ (useAvg : Bool) (suggs : List Suggestion) (sel : List String)
        (l : List AdjustableService),
      (∀ s ∈ l, adjustableInvariant s) →
      (∀ s ∈ l, ∀ g ∈ suggs, g.serviceId = s.id → sel.contains s.id = true →
        (useAvg = true → g.averageDuration ≠ s.baseDuration ∨ g.averagePrice ≠ s.basePrice) ∧
        (useAvg = false → g.lastDuration ≠ s.baseDuration ∨ g.lastPrice ≠ s.basePrice)) →
      ∀ s ∈ applySuggestions useAvg suggs sel l, adjustableInvariant s) := by
  refine ⟨?_, ?_, ?_, ?_⟩
  · intro sid nd np r l hl s hs
    rcases List.mem_map.mp hs with ⟨y, hy, hys⟩
    by_cases hid : y.id = sid
    · rw [if_pos hid] at hys
      subst hys
      unfold adjustableInvariant
      rfl
    · rw [if_neg hid] at hys
      exact hys ▸ hl y hy
  · intro sid l hl s hs
    rcases List.mem_map.mp hs with ⟨y, hy, hys⟩
    by_cases hid : y.id = sid
    · rw [if_pos hid] at hys
      subst hys
      unfold adjustableInvariant
      simp
    · rw [if_neg hid] at hys
      exact hys ▸ hl y hy
  · intro t p tm r l s hs
    rcases List.mem_map.mp hs with ⟨y, _, hys⟩
    subst hys
    unfold adjustableInvariant
    cases t <;> simp [applyBulkToService, Bool.or_comm]
  · intro useAvg suggs sel l hl hdiff s hs
    rcases List.mem_map.mp hs with ⟨y, hy, hys⟩
    rcases hfind : suggs.find? (fun g => g.serviceId = y.id) with _ | g
    · rw [hfind] at hys
      exact hys ▸ hl y hy
    · rw [hfind] at hys
      dsimp only at hys
      by_cases hsel : sel.contains y.id = true
      · rw [if_pos hsel] at hys
        have hgm : g ∈ suggs := List.mem_of_find?_eq_some hfind
        have hgid : g.serviceId = y.id := by
          have := List.find?_some hfind
          simpa using this
        have hd := hdiff y hy g hgm hgid hsel
        subst hys
        unfold adjustableInvariant
        cases useAvg
        · rcases hd.2 rfl with h | h <;> simp [h]
        · rcases hd.1 rfl with h | h <;> simp [h]
      · rw [if_neg hsel] at hys
        exact hys ▸ hl y hy

/-- C5 amended witness: applying a genuinely different historical
suggestion to the カット fixture keeps the invariant. -/
theorem adjustment_operations_invariant_witness :
    adjustableInvariant suggestedAdj :=
  adjustment_operations_invariant.2.2.2 false [discountedSuggestion] ["1"] [demoAdj]
    (by decide) (by decide) suggestedAdj (by decide)

/-- C1 (amended): the appointment routes store the caller-supplied
derived fields verbatim — create takes `totalPrice`/`totalDuration` with
`|| 0` and `end`/`services` as sent, update merges patch fields without
recomputation — so the totals invariant holds for the stored record
exactly when the caller's input already satisfies it (as the booking-flow
client arranges), not for arbitrary input. -/
theorem appointment_totals_taken_from_caller :
    (∀ (input : CreateAppointmentInput) (l : List Appointment) (now : Int)
        (a : Appointment) (st : List Appointment),
      createAppointment input l now = .ok (a, st) →
      a.totalPrice = jsOrZero input.totalPrice ∧
      a.totalDuration = jsOrZero input.totalDuration ∧
      a.endTime = input.endTime ∧
      a.services = input.services ∧
      st = l ++ [a] ∧
      (input.totalPrice = some ((input.services.map fun s => s.price).sum) →
       input.totalDuration = some ((input.services.map fun s => s.duration).sum) →
       input.endTime = some (a.start + (input.services.map fun s => s.duration).sum) →
       appointmentTotalsInvariant a)) ∧
    (∀ (id : String) (p : AppointmentPatch) (l : List Appointment) (now : Int)
        (a : Appointment) (st : List Appointment),
      updateAppointment id p l now = .ok (a, st) →
      (∀ b ∈ l, appointmentTotalsInvariant b) →
      p.services = none → p.totalPrice = none → p.totalDuration = none →
      p.endTime = none → p.start = none →
      appointmentTotalsInvariant a) := by
  constructor
  · intro input l now a st h
    unfold createAppointment at h
    rcases hstart : input.start with _ | sv
    · rw [hstart] at h
      exact absurd h (by simp)
    · rw [hstart] at h
      dsimp only at h
      by_cases hval : input.clientName = "" ∨ input.services.isEmpty
      · rw [if_pos hval] at h
        exact absurd h (by simp)
      · rw [if_neg hval] at h
        injection h with h2
        injection h2 with ha hstore
        refine ⟨by rw [← ha], by rw [← ha], by rw [← ha], by rw [← ha], by rw [← ha]; exact hstore.symm, ?_⟩
        intro htp htd hend
        unfold appointmentTotalsInvariant
        rw [← ha]
        refine ⟨?_, ?_, ?_⟩
        · simp [jsOrZero, htp]
        · simp [jsOrZero, htd]
        · rw [← ha] at hend
          simp only [jsOrZero, htd, Option.getD_some]
          exact hend
  · intro id p l now a st h hinv hs htp htd he hstart
    rcases updateAppointment_ok id p now l a st h with ⟨pre, post, old, hleq, _, _, hmerge, _⟩
    have hold : appointmentTotalsInvariant old := by
      refine hinv old ?_
      rw [hleq]
      exact List.mem_append.mpr (Or.inr (List.mem_cons_self _ _))
    rcases hold with ⟨h1, h2, h3⟩
    subst hmerge
    refine ⟨?_, ?_, ?_⟩ <;>
      simp [mergeAppointment, appointmentTotalsInvariant, hs, htp, htd, he, hstart, h1, h2, h3]

/-- C1 amended witness: a caller-consistent create body is stored
satisfying the totals invariant. -/
theorem appointment_totals_taken_from_caller_witness :
    createAppointment consistentCreateInput [] 0 = .ok (demoCreatedAppt, [demoCreatedAppt]) ∧
    appointmentTotalsInvariant demoCreatedAppt := by
  have hok : createAppointment consistentCreateInput [] 0
      = .ok (demoCreatedAppt, [demoCreatedAppt]) := by rfl
  exact ⟨hok, (appointment_totals_taken_from_caller.1 consistentCreateInput [] 0
    demoCreatedAppt [demoCreatedAppt] hok).2.2.2.2.2 (by decide) (by decide) (by decide)⟩

/-- C8: a successful `deactivateService` never removes the record — the
store keeps every other service and every other field of the target,
changing only `isActive` (to `false`) and `updatedAt` — and afterwards
the `isActive:'true'` listing excludes the record while the
`isActive:'all'` listing includes it. -/
theorem deactivateService_soft_delete :
    ∀ (sid : String) (l newStore : List CatalogService) (now : Int) (s : CatalogService),
      deactivateService sid l now = .ok (newStore, s) →
      (∃ pre post orig, l = pre ++ orig :: post ∧ (∀ x ∈ pre, x.id ≠ sid) ∧ orig.id = sid ∧
        s = { orig with isActive := false, updatedAt := now } ∧ newStore = pre ++ s :: post) ∧
      s.isActive = false ∧
      s ∉ listServices none none (some "true") newStore ∧
      s ∈ listServices none none (some "all") newStore := by
  intro sid l ns now s h
  rcases deactivateService_ok sid now l ns s h with ⟨pre, post, orig, hleq, hpre, hid, hs, hns⟩
  have hsa : s.isActive = false := by rw [hs]
  refine ⟨⟨pre, post, orig, hleq, hpre, hid, hs, hns⟩, hsa, ?_, ?_⟩
  · intro hmem
    simp only [listServices] at hmem
    rw [mem_sortByNameAsc] at hmem
    have hact := (List.mem_filter.mp hmem).2
    rw [hsa] at hact
    simp at hact
  · simp only [listServices]
    rw [mem_sortByNameAsc]
    refine List.mem_filter.mpr ⟨?_, ?_⟩
    · rw [hns]
      exact List.mem_append.mpr (Or.inr (List.mem_cons_self _ _))
    · rw [hsa]
      simp

/-- C8 witness: deactivating カット in a two-service catalog. -/
theorem deactivateService_soft_delete_witness :
    deactivatedCut.isActive = false ∧
    deactivatedCut ∉ listServices none none (some "true") [deactivatedCut, catalogColor] ∧
    deactivatedCut ∈ listServices none none (some "all") [deactivatedCut, catalogColor] := by
  have h := deactivateService_soft_delete "1" [catalogCut, catalogColor]
    [deactivatedCut, catalogColor] 5 deactivatedCut (by rfl)
  exact ⟨h.2.1, h.2.2.1, h.2.2.2⟩

/-- C6: the Customer Statistics Projection. The spec example (one
completed appointment at 8000, one cancelled at 5000 → visits 1, spent
8000, average 8000); prepending any non-completed appointment changes
nothing; `totalVisits`/`totalSpent` count and sum exactly the customer's
completed appointments; `averageSpent` is the half-up-rounded mean when
there are visits and 0 otherwise; `lastVisit` is the start of a most
recent completed appointment; `favoriteServices` is at most 5 names drawn
from a stable count-descending sort of the usage counts (ties keep
first-encountered order, by the stability of the sort). -/
theorem customerStats_projection :
    customerStats statsAppts "7" =
      { totalVisits := 1, totalSpent := 8000, averageSpent := 8000,
        lastVisit := some 100, favoriteServices := ["カット"] } ∧
    (∀ (a : Appointment) (appts : List Appointment) (cid : String),
      a.status ≠ .completed → customerStats (a :: appts) cid = customerStats appts cid) ∧
    (∀ (appts : List Appointment) (cid : String),
      (customerStats appts cid).totalVisits
        = ((appts.filter fun a => a.clientId = cid).filter fun a => a.status = .completed).length ∧
      (customerStats appts cid).totalSpent
        = (((appts.filter fun a => a.clientId = cid).filter fun a => a.status = .completed).map
            fun a => a.totalPrice).sum ∧
      ((customerStats appts cid).totalVisits > 0 →
        (customerStats appts cid).averageSpent
          = round (((customerStats appts cid).totalSpent : ℚ)
              / ((customerStats appts cid).totalVisits : ℚ))) ∧
      ((customerStats appts cid).totalVisits = 0 → (customerStats appts cid).averageSpent = 0)) ∧
    (∀ (appts : List Appointment) (cid : String) (v : Int),
      (customerStats appts cid).lastVisit = some v →
      ∃ a, a ∈ appts ∧ a.clientId = cid ∧ a.status = .completed ∧ a.start = v ∧
        ∀ b ∈ appts, b.clientId = cid → b.status = .completed → b.start ≤ v) ∧
    (∀ (appts : List Appointment) (cid : String),
      (customerStats appts cid).favoriteServices.length ≤ 5) ∧
    (∀ (l : List (String × Nat)) (c : Int),
      (sortByKeyDesc (fun p => (p.2 : Int)) l).Pairwise
        (fun x y => ((y.2 : Int) ≤ (x.2 : Int))) ∧
      (sortByKeyDesc (fun p => (p.2 : Int)) l).filter (fun x => (x.2 : Int) = c)
        = l.filter fun x => (x.2 : Int) = c) := by
  refine ⟨by decide, ?_, ?_, ?_, ?_, ?_⟩
  · intro a appts cid hst
    simp only [customerStats]
    by_cases hc : a.clientId = cid
    · rw [List.filter_cons_of_pos (by simpa using hc), sortByKeyDesc,
        filter_insertByKeyDesc_neg (fun x => x.start)
          (fun x => decide (x.status = Status.completed)) a _ (by simp [hst])]
    · rw [List.filter_cons_of_neg (by simpa using hc)]
  · intro appts cid
    have hperm : List.Perm
        ((sortByKeyDesc (fun x : Appointment => x.start)
            (appts.filter fun x => x.clientId = cid)).filter
          fun x => x.status = .completed)
        ((appts.filter fun x => x.clientId = cid).filter fun x => x.status = .completed) :=
      (sortByKeyDesc_perm _ _).filter _
    refine ⟨?_, ?_, ?_, ?_⟩
    · simpa only [customerStats] using hperm.length_eq
    · simpa only [customerStats] using (hperm.map fun a => a.totalPrice).sum_eq
    · intro hv
      simp only [customerStats] at hv ⊢
      rw [if_pos hv]
      rw [jsRound_eq_round _ _ (by exact_mod_cast hv)]
      push_cast
      ring_nf
    · intro hz
      simp only [customerStats] at hz ⊢
      rw [if_neg (by omega)]
  · intro appts cid v h
    simp only [customerStats] at h
    rcases hh : (sortByKeyDesc (fun x : Appointment => x.start)
        (appts.filter fun x => x.clientId = cid)).filter
        (fun x => x.status = .completed) |>.head? with _ | a0
    · rw [hh] at h
      simp at h
    · rw [hh] at h
      have hv : a0.start = v := by simpa using h
      have ha0mem : a0 ∈ (sortByKeyDesc (fun x : Appointment => x.start)
          (appts.filter fun x => x.clientId = cid)).filter
          (fun x => x.status = .completed) := by
        rcases hl : (sortByKeyDesc (fun x : Appointment => x.start)
            (appts.filter fun x => x.clientId = cid)).filter
            (fun x => x.status = .completed) with _ | ⟨b, t⟩
        · rw [hl] at hh; simp at hh
        · rw [hl] at hh
          simp only [List.head?] at hh
          injection hh with hb
          rw [hl, hb]
          exact List.mem_cons_self _ _
      have ha0f := List.mem_filter.mp ha0mem
      have ha0sort := ha0f.1
      have ha0comp : a0.status = .completed := by simpa using ha0f.2
      have ha0cl := List.mem_filter.mp ((mem_sortByKeyDesc _ _ _).mp ha0sort)
      have hpw : ((sortByKeyDesc (fun x : Appointment => x.start)
          (appts.filter fun x => x.clientId = cid)).filter
          (fun x => x.status = .completed)).Pairwise
          (fun x y => (fun z : Appointment => z.start) y ≤ (fun z : Appointment => z.start) x) :=
        (pairwise_sortByKeyDesc _ _).filter _
      refine ⟨a0, ha0cl.1, by simpa using ha0cl.2, ha0comp, hv, ?_⟩
      intro b hb hbcl hbcomp
      have hbmem : b ∈ (sortByKeyDesc (fun x : Appointment => x.start)
          (appts.filter fun x => x.clientId = cid)).filter
          (fun x => x.status = .completed) := by
        refine List.mem_filter.mpr ⟨?_, by simpa using hbcomp⟩
        rw [mem_sortByKeyDesc]
        exact List.mem_filter.mpr ⟨hb, by simpa using hbcl⟩
      have := head_pairwise_max (fun z : Appointment => z.start) _ a0 hpw hh b hbmem
      simpa [hv] using this
  · intro appts cid
    simp only [customerStats, List.length_map, List.length_take]
    exact min_le_left _ _
  · intro l c
    exact ⟨pairwise_sortByKeyDesc _ _, filter_keyEq_sortByKeyDesc _ _ _⟩

/-- C6 witness: prepending a second cancelled appointment leaves the
projection of the example customer unchanged. -/
theorem customerStats_projection_witness :
    customerStats (mkAppt "12" 300 "7" .cancelled [cutAt 9000] 9000 :: statsAppts) "7"
      = customerStats statsAppts "7" :=
  customerStats_projection.2.1 (mkAppt "12" 300 "7" .cancelled [cutAt 9000] 9000)
    statsAppts "7" (by decide)

end Salon
